import Mathlib

/-!
Verification of the buffered, rate-adapting audio file player
(BufferedAudioFilePlayer) against its natural-language specification.

The embedding models the player state as a structure over exact rationals:
sample rates and samples are rationals (the C++ uses doubles and floats; the
claims under verification are about control flow, cursor arithmetic and
sample routing, not about floating-point rounding), the interleaved
single-producer single-consumer FIFO is a list with an explicit capacity
(choc's SingleReaderSingleWriterFIFO of capacity bufferSize: push fails
exactly when the buffer holds bufferSize samples, pop on an empty buffer
leaves its target untouched), and the decoded file is a total function from
channel and frame index to a sample, mirroring AudioFileReader::readFrames
on its success path.
-/

namespace BufferedPlayer

/-- State of a BufferedAudioFilePlayer: the fields of the C++ class that the
verified operations touch (BufferedAudioFilePlayer.h lines 63-89). -/
structure Player where
  fileSampleRate : ℚ
  outputSampleRate : ℚ
  numChannels : ℕ
  totalFrames : ℕ
  isPlaying : Bool
  fileLoaded : Bool
  currentGain : ℚ
  bufferSize : ℕ
  audioBuffer : List ℚ
  fileReadPosition : ℕ
  totalSamplesPlayed : ℕ
  loopPlaybackDetected : Bool

/-- The audio file contents: channel index and frame index to sample value. -/
def AudioFile : Type := ℕ → ℕ → ℚ

/-- Worker chunk quantum: fillBufferFromFile reads 1024 frames at a time. -/
def chunkFrames : ℕ := 1024

/-- One interleaved frame of the file: the samples of every channel at a
given frame index, in channel order (readView.getSample(channel, frame)). -/
def fileFrame (file : AudioFile) (nCh fr : ℕ) : List ℚ :=
  (List.range nCh).map (fun ch => file ch fr)

/-- choc FIFO push: succeeds and appends unless the buffer is full. -/
def fifoPush (cap : ℕ) (buf : List ℚ) (s : ℚ) : List ℚ × Bool :=
  if buf.length < cap then (buf ++ [s], true) else (buf, false)

/-- Push a run of samples one at a time, stopping at the first failed push
(the inner channel loops of fillBufferFromFile). Returns the buffer state
and whether every push succeeded. -/
def pushAll (cap : ℕ) : List ℚ → List ℚ → List ℚ × Bool
  | buf, [] => (buf, true)
  | buf, s :: rest =>
    match fifoPush cap buf s with
    | (buf2, true) => pushAll cap buf2 rest
    | (buf2, false) => (buf2, false)

/-- The frame loop of fillBufferFromFile: for each frame index starting at f0,
push that frame's samples; on a failed push stop and report the frame index
reached (the code then records a source position derived from it). -/
def frameLoop (cap : ℕ) (mk : ℕ → List ℚ) : ℕ → ℕ → List ℚ → List ℚ × Option ℕ
  | _, 0, buf => (buf, none)
  | f, k + 1, buf =>
    match pushAll cap buf (mk f) with
    | (buf2, true) => frameLoop cap mk (f + 1) k buf2
    | (buf2, false) => (buf2, some f)

/-- Concatenation of the per-frame sample lists for k consecutive frame
indices starting at s: the sample stream a sequence of successful frame
pushes appends to the FIFO. -/
def chunks (mk : ℕ → List ℚ) : ℕ → ℕ → List ℚ
  | _, 0 => []
  | s, k + 1 => mk s ++ chunks mk (s + 1) k

/-- Catmull-Rom cubic interpolation exactly as computed in
fillBufferFromFile (BufferedAudioFilePlayer.cpp lines 253-259). -/
def catmullRom (y0 y1 y2 y3 t : ℚ) : ℚ :=
  let a0 := -(1/2) * y0 + (3/2) * y1 - (3/2) * y2 + (1/2) * y3
  let a1 := y0 - (5/2) * y1 + 2 * y2 - (1/2) * y3
  let a2 := -(1/2) * y0 + (1/2) * y2
  let a3 := y1
  a0 * t * t * t + a1 * t * t + a2 * t + a3

/-- Linear interpolation fallback (BufferedAudioFilePlayer.cpp line 275). -/
def linearInterp (s1 s2 t : ℚ) : ℚ := s1 + t * (s2 - s1)

/-- The samples the resampling loop computes for one output frame: the
three-tier branch of fillBufferFromFile (lines 236-296). win is the read
window of W source frames, r the rate ratio. An output frame whose source
index falls outside the window produces no samples. -/
def resampleFrameSamples (win : ℕ → ℕ → ℚ) (nCh W : ℕ) (r : ℚ) (outFrame : ℕ) :
    List ℚ :=
  let sourcePos : ℚ := (outFrame : ℚ) * r
  let sourceFrame : ℕ := (⌊sourcePos⌋).toNat
  let t : ℚ := sourcePos - (sourceFrame : ℚ)
  if sourceFrame + 3 < W ∧ 0 < sourceFrame then
    (List.range nCh).map (fun ch =>
      catmullRom (win ch (sourceFrame - 1)) (win ch sourceFrame)
        (win ch (sourceFrame + 1)) (win ch (sourceFrame + 2)) t)
  else if sourceFrame + 1 < W then
    (List.range nCh).map (fun ch =>
      linearInterp (win ch sourceFrame) (win ch (sourceFrame + 1)) t)
  else if sourceFrame < W then
    (List.range nCh).map (fun ch => win ch sourceFrame)
  else []

/-- fillBufferFromFile (BufferedAudioFilePlayer.cpp lines 179-348), on the
success path of the decode read. Checks free space, handles the end-of-file
wrap (resetting the read cursor and raising the loop flag), then either
resamples through the three-tier interpolator or copies directly, pushing
interleaved samples and recording the source position reached on a failed
push. -/
def fillBufferFromFile (p : Player) (file : AudioFile) : Player :=
  let freeSlots := p.bufferSize - p.audioBuffer.length
  let freeFrames := freeSlots / p.numChannels
  if freeFrames < chunkFrames then p
  else
    let framesToRead := min chunkFrames freeFrames
    let currentFilePos := if p.totalFrames ≤ p.fileReadPosition then 0
      else p.fileReadPosition
    let loopFlag := if p.totalFrames ≤ p.fileReadPosition then true
      else p.loopPlaybackDetected
    let availableFrames := p.totalFrames - currentFilePos
    let actualFramesToRead := min framesToRead availableFrames
    if actualFramesToRead = 0 then
      { p with fileReadPosition := 0, loopPlaybackDetected := true }
    else if 1/10 < |p.fileSampleRate - p.outputSampleRate| then
      let r := p.fileSampleRate / p.outputSampleRate
      let fileFramesToRead :=
        min ((⌊(actualFramesToRead : ℚ) * r⌋).toNat + 2) availableFrames
      let win : ℕ → ℕ → ℚ := fun ch j => file ch (currentFilePos + j)
      let mk : ℕ → List ℚ := fun i =>
        resampleFrameSamples win p.numChannels fileFramesToRead r i
      match frameLoop p.bufferSize mk 0 actualFramesToRead p.audioBuffer with
      | (buf2, none) =>
        { p with audioBuffer := buf2,
                 fileReadPosition := currentFilePos + fileFramesToRead,
                 loopPlaybackDetected := loopFlag }
      | (buf2, some i) =>
        let sourceFrame := (⌊(i : ℚ) * r⌋).toNat
        { p with audioBuffer := buf2,
                 fileReadPosition := currentFilePos + sourceFrame,
                 loopPlaybackDetected := loopFlag }
    else
      let mk : ℕ → List ℚ := fun f => fileFrame file p.numChannels (currentFilePos + f)
      match frameLoop p.bufferSize mk 0 actualFramesToRead p.audioBuffer with
      | (buf2, none) =>
        { p with audioBuffer := buf2,
                 fileReadPosition := currentFilePos + actualFramesToRead,
                 loopPlaybackDetected := loopFlag }
      | (buf2, some f) =>
        { p with audioBuffer := buf2,
                 fileReadPosition := currentFilePos + f,
                 loopPlaybackDetected := loopFlag }

/-- choc FIFO pop into a target variable: on an empty buffer the pop fails
and the target keeps its previous value (the zero the frame staging array
was initialised with). -/
def popInto : ℕ → ℕ → List ℚ → (ℕ → ℚ) → (ℕ → ℚ) × List ℚ
  | 0, _, buf, fs => (fs, buf)
  | k + 1, ch, buf, fs =>
    match buf with
    | [] => popInto k (ch + 1) [] fs
    | x :: rest => popInto k (ch + 1) rest (fun i => if i = ch then x else fs i)

/-- The per-frame render loop of processBlock: pop one interleaved frame
(at most 8 channels) into the staging array, then write each output channel
from staging slot min(channel, numChannels-1) scaled by the gain. -/
def renderLoop (nCh nOut : ℕ) (g : ℚ) :
    ℕ → ℕ → List ℚ → (ℕ → ℕ → ℚ) → List ℚ × (ℕ → ℕ → ℚ)
  | _, 0, buf, out => (buf, out)
  | f, k + 1, buf, out =>
    let step := popInto (min nCh 8) 0 buf (fun _ => 0)
    let out2 : ℕ → ℕ → ℚ := fun c fr =>
      if fr = f ∧ c < nOut then step.1 (min c (nCh - 1)) * g else out c fr
    renderLoop nCh nOut g (f + 1) k step.2 out2

/-- processBlock (BufferedAudioFilePlayer.cpp lines 350-401): clear the
output, return silence when not playing or not loaded or on underrun,
otherwise pop interleaved frames and write them to the output channels with
the gain applied. The output block is a function from channel and frame to
the written sample (zero everywhere the code does not write). -/
def processBlock (p : Player) (numFrames numOutputChannels : ℕ) :
    Player × (ℕ → ℕ → ℚ) :=
  let out0 : ℕ → ℕ → ℚ := fun _ _ => 0
  if !p.isPlaying || !p.fileLoaded then (p, out0)
  else
    let samplesNeeded := numFrames * p.numChannels
    if p.audioBuffer.length < samplesNeeded then (p, out0)
    else
      let gain := p.currentGain
      let res := renderLoop p.numChannels numOutputChannels gain 0 numFrames
        p.audioBuffer out0
      ({ p with audioBuffer := res.1 }, res.2)

/-- play(): BufferedAudioFilePlayer.h line 31. -/
def play (p : Player) : Player := { p with isPlaying := true }

/-- pause(): BufferedAudioFilePlayer.h line 32. -/
def pause (p : Player) : Player := { p with isPlaying := false }

/-- stop(): BufferedAudioFilePlayer.h line 33 — reset both cursors and clear
the ring buffer (reset to the same capacity). -/
def stop (p : Player) : Player :=
  { p with isPlaying := false, fileReadPosition := 0, totalSamplesPlayed := 0,
           audioBuffer := [] }

/-- setGain(): BufferedAudioFilePlayer.h line 37, clamps to the unit range. -/
def setGain (p : Player) (g : ℚ) : Player :=
  { p with currentGain := min (max g 0) 1 }

/-- getCurrentOutputFrame(): BufferedAudioFilePlayer.h lines 48-51, the
published playback position. -/
def getCurrentOutputFrame (p : Player) : ℕ := p.totalSamplesPlayed

/-- getLoopPlaybackDetected(): BufferedAudioFilePlayer.h line 45 — read and
atomically clear the loop flag. -/
def getLoopPlaybackDetected (p : Player) : Bool × Player :=
  (p.loopPlaybackDetected, { p with loopPlaybackDetected := false })

/-- skipForward(seconds): BufferedAudioFilePlayer.cpp lines 403-428 (the
definition matching the header declaration, which returns the published
position). Advances the file read cursor modulo the frame count, clears the
ring buffer, and returns getCurrentOutputFrame(). -/
def skipForward (p : Player) (seconds : ℚ) : Player × ℕ :=
  if !p.fileLoaded then (p, getCurrentOutputFrame p)
  else
    let framesToSkip := (⌊seconds * p.fileSampleRate⌋).toNat
    let newFilePos0 := p.fileReadPosition + framesToSkip
    let newFilePos := if p.totalFrames ≤ newFilePos0 then newFilePos0 % p.totalFrames
      else newFilePos0
    let p2 := { p with fileReadPosition := newFilePos, audioBuffer := [] }
    (p2, getCurrentOutputFrame p2)

/-! Concrete instances used to evaluate the operations on specific inputs. -/

/-- A playing, loaded 2-channel player with 4 buffered frames (8 interleaved
samples) and matching sample rates. -/
def pRender : Player :=
  { fileSampleRate := 48000, outputSampleRate := 48000, numChannels := 2,
    totalFrames := 100, isPlaying := true, fileLoaded := true,
    currentGain := 1, bufferSize := 4096,
    audioBuffer := [3, 4, 5, 6, 7, 8, 9, 10], fileReadPosition := 8,
    totalSamplesPlayed := 0, loopPlaybackDetected := false }

/-- A loaded player positioned at frame 10 of a 100-frame file whose native
rate is 10 Hz, with both cursors at 10. -/
def pSeek : Player :=
  { fileSampleRate := 10, outputSampleRate := 10, numChannels := 2,
    totalFrames := 100, isPlaying := true, fileLoaded := true,
    currentGain := 1, bufferSize := 100, audioBuffer := [1, 2],
    fileReadPosition := 10, totalSamplesPlayed := 10,
    loopPlaybackDetected := false }

/-- A paused player with plenty of buffered audio. -/
def pPaused : Player :=
  { fileSampleRate := 48000, outputSampleRate := 48000, numChannels := 2,
    totalFrames := 100, isPlaying := false, fileLoaded := true,
    currentGain := 1, bufferSize := 4096,
    audioBuffer := [3, 4, 5, 6, 7, 8, 9, 10], fileReadPosition := 8,
    totalSamplesPlayed := 0, loopPlaybackDetected := false }

/-- A mono player whose read cursor sits exactly at the end of a 5-frame
file, about to wrap. -/
def pLoop : Player :=
  { fileSampleRate := 48000, outputSampleRate := 48000, numChannels := 1,
    totalFrames := 5, isPlaying := true, fileLoaded := true,
    currentGain := 1, bufferSize := 1024, audioBuffer := [],
    fileReadPosition := 5, totalSamplesPlayed := 0,
    loopPlaybackDetected := false }

/-- A stereo player at the start of a 4-frame file with matching rates, an
empty ring buffer of capacity 2048, and unit gain. -/
def pDirect : Player :=
  { fileSampleRate := 48000, outputSampleRate := 48000, numChannels := 2,
    totalFrames := 4, isPlaying := true, fileLoaded := true,
    currentGain := 1, bufferSize := 2048, audioBuffer := [],
    fileReadPosition := 0, totalSamplesPlayed := 0,
    loopPlaybackDetected := false }

/-- A mono player at the start of a 3000-frame file with matching rates and
an empty ring buffer of capacity 4096 samples. -/
def pStream : Player :=
  { fileSampleRate := 48000, outputSampleRate := 48000, numChannels := 1,
    totalFrames := 3000, isPlaying := true, fileLoaded := true,
    currentGain := 1, bufferSize := 4096, audioBuffer := [],
    fileReadPosition := 0, totalSamplesPlayed := 0,
    loopPlaybackDetected := false }

/-- A mono player whose 72 kHz file is rendered at 48 kHz (ratio 3/2) with a
7-frame file, exercising the resampling path. -/
def pDownsample : Player :=
  { fileSampleRate := 72000, outputSampleRate := 48000, numChannels := 1,
    totalFrames := 7, isPlaying := true, fileLoaded := true,
    currentGain := 1, bufferSize := 1024, audioBuffer := [],
    fileReadPosition := 0, totalSamplesPlayed := 0,
    loopPlaybackDetected := false }

/-- A mono player whose 36 kHz file is rendered at 48 kHz (ratio 3/4) with a
9-frame file, exercising the resampling path without window clamping. -/
def pUpsample : Player :=
  { fileSampleRate := 36000, outputSampleRate := 48000, numChannels := 1,
    totalFrames := 9, isPlaying := true, fileLoaded := true,
    currentGain := 1, bufferSize := 1024, audioBuffer := [],
    fileReadPosition := 0, totalSamplesPlayed := 0,
    loopPlaybackDetected := false }

/-- A mono player whose 36 kHz file is rendered at 48 kHz (ratio 3/4) with
a 9-frame file and a 4096-sample ring buffer, leaving room for two
consecutive resampling fills. -/
def pSkip : Player :=
  { fileSampleRate := 36000, outputSampleRate := 48000, numChannels := 1,
    totalFrames := 9, isPlaying := true, fileLoaded := true,
    currentGain := 1, bufferSize := 4096, audioBuffer := [],
    fileReadPosition := 0, totalSamplesPlayed := 0,
    loopPlaybackDetected := false }

/-- An all-zero file except for a single unit impulse at frame 7. -/
def fileSpike : AudioFile := fun _ fr => if fr = 7 then (1 : ℚ) else 0

/-- A playing, loaded player with nine channels (one more than the staging
array supports) and one buffered frame. -/
def pWide : Player :=
  { fileSampleRate := 48000, outputSampleRate := 48000, numChannels := 9,
    totalFrames := 100, isPlaying := true, fileLoaded := true,
    currentGain := 1, bufferSize := 4096,
    audioBuffer := [1, 2, 3, 4, 5, 6, 7, 8, 9], fileReadPosition := 1,
    totalSamplesPlayed := 0, loopPlaybackDetected := false }

/-- A file whose samples encode channel and frame: sample = channel + 10 *
frame, so routing can be read off a rendered value. -/
def fileRamp : AudioFile := fun ch fr => (ch : ℚ) + 10 * (fr : ℚ)

/-- An all-zero file except for a single unit impulse at frame 5. -/
def fileBump : AudioFile := fun _ fr => if fr = 5 then (1 : ℚ) else 0

/-- The all-zero file. -/
def fileZero : AudioFile := fun _ _ => (0 : ℚ)

/-! Helper lemmas about the loop primitives. -/

theorem fileFrame_length (file : AudioFile) (nCh fr : ℕ) :
    (fileFrame file nCh fr).length = nCh := by
  simp [fileFrame]

theorem mapRange_getD (f : ℕ → ℚ) (n i : ℕ) (h : i < n) (d : ℚ) :
    ((List.range n).map f).getD i d = f i := by
  rw [List.getD_eq_getElem _ _ (by simpa using h)]
  simp

theorem fileFrame_getD (file : AudioFile) (nCh fr ch : ℕ) (h : ch < nCh) :
    (fileFrame file nCh fr).getD ch 0 = file ch fr :=
  mapRange_getD (fun c => file c fr) nCh ch h 0

theorem pushAll_success (cap : ℕ) :
    ∀ (samples buf : List ℚ), buf.length + samples.length ≤ cap →
      pushAll cap buf samples = (buf ++ samples, true) := by
  intro samples
  induction samples with
  | nil => intro buf _; simp [pushAll]
  | cons s rest ih =>
    intro buf h
    have hlt : buf.length < cap := by
      simp only [List.length_cons] at h; omega
    have h2 : (buf ++ [s]).length + rest.length ≤ cap := by
      simp only [List.length_append, List.length_cons, List.length_nil] at h ⊢
      omega
    simp only [pushAll, fifoPush, if_pos hlt, ih (buf ++ [s]) h2,
      List.append_assoc, List.singleton_append]

theorem chunks_append (mk : ℕ → List ℚ) :
    ∀ (a s b : ℕ), chunks mk s a ++ chunks mk (s + a) b = chunks mk s (a + b) := by
  intro a
  induction a with
  | zero => intro s b; simp [chunks]
  | succ a ih =>
    intro s b
    have h1 : s + (a + 1) = (s + 1) + a := by omega
    have h2 : a + 1 + b = (a + b) + 1 := by omega
    simp only [chunks, h1, h2, List.append_assoc, ih (s + 1) b]

theorem chunks_length_le (mk : ℕ → List ℚ) (m : ℕ)
    (hm : ∀ j, (mk j).length ≤ m) :
    ∀ (k s : ℕ), (chunks mk s k).length ≤ k * m := by
  intro k
  induction k with
  | zero => intro s; simp [chunks]
  | succ k ih =>
    intro s
    have := hm s
    have := ih (s + 1)
    simp only [chunks, List.length_append, Nat.succ_mul]
    omega

theorem chunks_length_const (mk : ℕ → List ℚ) (m : ℕ)
    (hm : ∀ j, (mk j).length = m) :
    ∀ (k s : ℕ), (chunks mk s k).length = k * m := by
  intro k
  induction k with
  | zero => intro s; simp [chunks]
  | succ k ih =>
    intro s
    simp only [chunks, List.length_append, hm s, ih (s + 1), Nat.succ_mul]
    omega

theorem chunks_length_within (mk : ℕ → List ℚ) (m : ℕ) :
    ∀ (k s : ℕ), (∀ j, s ≤ j → j < s + k → (mk j).length = m) →
      (chunks mk s k).length = k * m := by
  intro k
  induction k with
  | zero => intro s _; simp [chunks]
  | succ k ih =>
    intro s hm
    have h1 : (mk s).length = m := hm s (Nat.le_refl s) (by omega)
    have h2 := ih (s + 1) (fun j hj1 hj2 => hm j (by omega) (by omega))
    simp only [chunks, List.length_append, h1, h2, Nat.succ_mul]
    omega

theorem chunks_shift (mk : ℕ → List ℚ) (p : ℕ) :
    ∀ (k s : ℕ), chunks (fun j => mk (p + j)) s k = chunks mk (p + s) k := by
  intro k
  induction k with
  | zero => intro s; simp [chunks]
  | succ k ih =>
    intro s
    have h : p + (s + 1) = (p + s) + 1 := by omega
    simp only [chunks, ih (s + 1), h]

theorem frameLoop_success (cap : ℕ) (mk : ℕ → List ℚ) :
    ∀ (k f0 : ℕ) (buf : List ℚ),
      buf.length + (chunks mk f0 k).length ≤ cap →
      frameLoop cap mk f0 k buf = (buf ++ chunks mk f0 k, none) := by
  intro k
  induction k with
  | zero => intro f0 buf _; simp [frameLoop, chunks]
  | succ k ih =>
    intro f0 buf h
    simp only [chunks, List.length_append] at h
    have h1 : buf.length + (mk f0).length ≤ cap := by omega
    have h2 : (buf ++ mk f0).length + (chunks mk (f0 + 1) k).length ≤ cap := by
      simp only [List.length_append]; omega
    simp only [frameLoop, pushAll_success cap (mk f0) buf h1,
      ih (f0 + 1) (buf ++ mk f0) h2, chunks, List.append_assoc]

theorem chunks_getD (mk : ℕ → List ℚ) (m : ℕ) :
    ∀ (i k s ch : ℕ), (∀ j, s ≤ j → j < s + k → (mk j).length = m) →
      i < k → ch < m →
      (chunks mk s k).getD (i * m + ch) 0 = (mk (s + i)).getD ch 0 := by
  intro i
  induction i with
  | zero =>
    intro k s ch hm hik hch
    match k with
    | k + 1 =>
      have hms : (mk s).length = m := hm s (Nat.le_refl s) (by omega)
      simp only [chunks, Nat.zero_mul, Nat.zero_add, Nat.add_zero]
      rw [List.getD_append _ _ _ _ (by rw [hms]; exact hch)]
  | succ i ih =>
    intro k s ch hm hik hch
    match k with
    | k + 1 =>
      have hik' : i < k := by omega
      have hms : (mk s).length = m := hm s (Nat.le_refl s) (by omega)
      have hge : (mk s).length ≤ (i + 1) * m + ch := by
        rw [hms]; calc m ≤ (i + 1) * m := Nat.le_mul_of_pos_left m (by omega)
          _ ≤ (i + 1) * m + ch := Nat.le_add_right _ _
      have hm' : ∀ j, s + 1 ≤ j → j < (s + 1) + k → (mk j).length = m := by
        intro j h1 h2
        exact hm j (by omega) (by omega)
      simp only [chunks]
      rw [List.getD_append_right _ _ _ _ hge, hms]
      have harith : (i + 1) * m + ch - m = i * m + ch := by
        simp only [Nat.succ_mul]; omega
      rw [harith, ih (k) (s + 1) ch hm' hik' hch]
      have : s + (i + 1) = (s + 1) + i := by omega
      rw [this]

theorem popInto_spec :
    ∀ (k ch : ℕ) (samples rest : List ℚ) (fs : ℕ → ℚ), samples.length = k →
      popInto k ch (samples ++ rest) fs =
        (fun i => if ch ≤ i ∧ i < ch + k then samples.getD (i - ch) 0 else fs i,
         rest) := by
  intro k
  induction k with
  | zero =>
    intro ch samples rest fs hlen
    rw [List.length_eq_zero] at hlen
    subst hlen
    simp only [List.nil_append, popInto]
    refine Prod.ext ?_ rfl
    funext i
    simp only
    rw [if_neg (by omega)]
  | succ k ih =>
    intro ch samples rest fs hlen
    match samples with
    | x :: s' =>
      simp only [List.length_cons] at hlen
      simp only [List.cons_append, popInto]
      rw [ih (ch + 1) s' rest _ (by omega)]
      refine Prod.ext ?_ rfl
      funext i
      simp only
      by_cases h1 : ch + 1 ≤ i ∧ i < ch + 1 + k
      · rw [if_pos h1, if_pos (by omega)]
        have : i - ch = (i - (ch + 1)) + 1 := by omega
        rw [this, List.getD_cons_succ]
      · rw [if_neg h1]
        by_cases h2 : i = ch
        · subst h2
          rw [if_pos rfl, if_pos (by omega)]
          simp [List.getD_cons_zero]
        · rw [if_neg h2, if_neg (by omega)]

theorem popInto_exact (m : ℕ) (samples rest : List ℚ) (hlen : samples.length = m) :
    popInto m 0 (samples ++ rest) (fun _ => 0) =
      (fun i => samples.getD i 0, rest) := by
  rw [popInto_spec m 0 samples rest _ hlen]
  refine Prod.ext ?_ rfl
  funext i
  simp only [Nat.zero_le, true_and, Nat.zero_add, Nat.sub_zero]
  by_cases h : i < m
  · rw [if_pos h]
  · rw [if_neg h, List.getD_eq_default _ _ (by omega)]

theorem popInto_drop (m : ℕ) (buf : List ℚ) (fs : ℕ → ℚ) (h : m ≤ buf.length) :
    (popInto m 0 buf fs).2 = buf.drop m := by
  have hsplit : buf = buf.take m ++ buf.drop m := (List.take_append_drop m buf).symm
  rw [hsplit, popInto_spec m 0 _ _ _ (by rw [List.length_take]; omega)]
  simp only
  rw [List.drop_append_of_le_length (by rw [List.length_take]; omega)]
  rw [List.drop_take]
  simp

theorem renderLoop_buffer (nCh nOut : ℕ) (g : ℚ) :
    ∀ (k f0 : ℕ) (buf : List ℚ) (out : ℕ → ℕ → ℚ),
      k * min nCh 8 ≤ buf.length →
      (renderLoop nCh nOut g f0 k buf out).1 = buf.drop (k * min nCh 8) := by
  intro k
  induction k with
  | zero => intro f0 buf out _; simp [renderLoop]
  | succ k ih =>
    intro f0 buf out h
    have hsucc : (k + 1) * min nCh 8 = k * min nCh 8 + min nCh 8 :=
      Nat.succ_mul k (min nCh 8)
    rw [hsucc] at h
    have hm : min nCh 8 ≤ buf.length := by omega
    simp only [renderLoop, popInto_drop (min nCh 8) buf _ hm]
    rw [ih (f0 + 1) _ _ (by rw [List.length_drop]; omega :
      k * min nCh 8 ≤ (buf.drop (min nCh 8)).length)]
    rw [List.drop_drop, hsucc, Nat.add_comm]

theorem renderLoop_out (nCh nOut : ℕ) (g : ℚ) (gs : ℕ → List ℚ)
    (hlen : ∀ j, (gs j).length = min nCh 8) :
    ∀ (k f0 : ℕ) (rest : List ℚ) (out : ℕ → ℕ → ℚ),
      renderLoop nCh nOut g f0 k (chunks gs f0 k ++ rest) out =
        (rest, fun c fr =>
          if f0 ≤ fr ∧ fr < f0 + k ∧ c < nOut then
            (gs fr).getD (min c (nCh - 1)) 0 * g
          else out c fr) := by
  intro k
  induction k with
  | zero =>
    intro f0 rest out
    simp only [chunks, List.nil_append, renderLoop]
    refine Prod.ext rfl ?_
    funext c fr
    simp only
    rw [if_neg (by omega)]
  | succ k ih =>
    intro f0 rest out
    simp only [chunks, List.append_assoc, renderLoop,
      popInto_exact (min nCh 8) (gs f0) _ (hlen f0)]
    rw [ih (f0 + 1) rest _]
    refine Prod.ext rfl ?_
    funext c fr
    simp only
    by_cases h1 : f0 + 1 ≤ fr ∧ fr < f0 + 1 + k ∧ c < nOut
    · rw [if_pos h1, if_pos (by omega)]
    · rw [if_neg h1]
      by_cases h2 : fr = f0 ∧ c < nOut
      · rw [if_pos h2, if_pos (by omega), h2.1]
      · rw [if_neg h2, if_neg (by omega)]

theorem resampleFrameSamples_length_le (win : ℕ → ℕ → ℚ) (nCh W : ℕ) (r : ℚ)
    (i : ℕ) : (resampleFrameSamples win nCh W r i).length ≤ nCh := by
  simp only [resampleFrameSamples]
  split
  · simp
  · split
    · simp
    · split
      · simp
      · simp

theorem resampleFrameSamples_length_of_lt (win : ℕ → ℕ → ℚ) (nCh W : ℕ)
    (r : ℚ) (i : ℕ) (hsf : (⌊(i : ℚ) * r⌋).toNat < W) :
    (resampleFrameSamples win nCh W r i).length = nCh := by
  simp only [resampleFrameSamples]
  split
  · simp
  · split
    · simp
    · simp

theorem fill_space (p : Player) (hch : 0 < p.numChannels)
    (hguard : chunkFrames ≤ (p.bufferSize - p.audioBuffer.length) / p.numChannels)
    (n : ℕ) (hn : n ≤ chunkFrames) :
    p.audioBuffer.length + n * p.numChannels ≤ p.bufferSize := by
  have h1 : chunkFrames * p.numChannels ≤ p.bufferSize - p.audioBuffer.length :=
    (Nat.le_div_iff_mul_le hch).mp hguard
  have h2 : n * p.numChannels ≤ chunkFrames * p.numChannels :=
    Nat.mul_le_mul_right _ hn
  have h3 : 0 < chunkFrames * p.numChannels :=
    Nat.mul_pos (by simp [chunkFrames]) hch
  omega

theorem fill_direct_spec (p : Player) (file : AudioFile)
    (hres : ¬ (1/10 < |p.fileSampleRate - p.outputSampleRate|))
    (hch : 0 < p.numChannels)
    (hguard : chunkFrames ≤ (p.bufferSize - p.audioBuffer.length) / p.numChannels)
    (hpos : p.fileReadPosition < p.totalFrames) :
    fillBufferFromFile p file =
      { p with
        audioBuffer := p.audioBuffer ++
          chunks (fileFrame file p.numChannels) p.fileReadPosition
            (min chunkFrames (p.totalFrames - p.fileReadPosition)),
        fileReadPosition := p.fileReadPosition +
          min chunkFrames (p.totalFrames - p.fileReadPosition) } := by
  have hnotlt : ¬ ((p.bufferSize - p.audioBuffer.length) / p.numChannels <
      chunkFrames) := Nat.not_lt.mpr hguard
  have hnotwrap : ¬ (p.totalFrames ≤ p.fileReadPosition) := Nat.not_le.mpr hpos
  have hne : ¬ (min (min chunkFrames
      ((p.bufferSize - p.audioBuffer.length) / p.numChannels))
      (p.totalFrames - p.fileReadPosition) = 0) := by
    rw [Nat.min_eq_left hguard]
    have h1 : 0 < p.totalFrames - p.fileReadPosition := by omega
    have h2 : 0 < chunkFrames := by simp [chunkFrames]
    omega
  simp only [fillBufferFromFile, if_neg hnotlt, if_neg hnotwrap, if_neg hne,
    if_neg hres]
  rw [Nat.min_eq_left hguard] at hne ⊢
  set n := min chunkFrames (p.totalFrames - p.fileReadPosition) with hn
  have hlen : ∀ j, ((fun f =>
      fileFrame file p.numChannels (p.fileReadPosition + f)) j).length =
      p.numChannels := fun j => fileFrame_length _ _ _
  have hchl : (chunks (fun f =>
      fileFrame file p.numChannels (p.fileReadPosition + f)) 0 n).length =
      n * p.numChannels := chunks_length_const _ _ hlen n 0
  have hspace : p.audioBuffer.length + (chunks (fun f =>
      fileFrame file p.numChannels (p.fileReadPosition + f)) 0 n).length ≤
      p.bufferSize := by
    rw [hchl]
    exact fill_space p hch hguard n (Nat.min_le_left _ _)
  rw [frameLoop_success p.bufferSize _ n 0 p.audioBuffer hspace]
  rw [chunks_shift (fileFrame file p.numChannels) p.fileReadPosition n 0]
  simp only [Nat.add_zero]

theorem fill_direct_wrap_spec (p : Player) (file : AudioFile)
    (hres : ¬ (1/10 < |p.fileSampleRate - p.outputSampleRate|))
    (hch : 0 < p.numChannels)
    (hguard : chunkFrames ≤ (p.bufferSize - p.audioBuffer.length) / p.numChannels)
    (hpos : p.totalFrames ≤ p.fileReadPosition)
    (htot : 0 < p.totalFrames) :
    fillBufferFromFile p file =
      { p with
        audioBuffer := p.audioBuffer ++
          chunks (fileFrame file p.numChannels) 0 (min chunkFrames p.totalFrames),
        fileReadPosition := min chunkFrames p.totalFrames,
        loopPlaybackDetected := true } := by
  have hnotlt : ¬ ((p.bufferSize - p.audioBuffer.length) / p.numChannels <
      chunkFrames) := Nat.not_lt.mpr hguard
  have hne : ¬ (min (min chunkFrames
      ((p.bufferSize - p.audioBuffer.length) / p.numChannels))
      (p.totalFrames - 0) = 0) := by
    rw [Nat.min_eq_left hguard]
    have h2 : 0 < chunkFrames := by simp [chunkFrames]
    omega
  simp only [fillBufferFromFile, if_neg hnotlt, if_pos hpos, if_neg hne,
    if_neg hres]
  rw [Nat.min_eq_left hguard] at hne ⊢
  simp only [Nat.sub_zero] at hne ⊢
  set n := min chunkFrames p.totalFrames with hn
  have hlen : ∀ j, ((fun f =>
      fileFrame file p.numChannels (0 + f)) j).length = p.numChannels :=
    fun j => fileFrame_length _ _ _
  have hchl : (chunks (fun f =>
      fileFrame file p.numChannels (0 + f)) 0 n).length =
      n * p.numChannels := chunks_length_const _ _ hlen n 0
  have hspace : p.audioBuffer.length + (chunks (fun f =>
      fileFrame file p.numChannels (0 + f)) 0 n).length ≤ p.bufferSize := by
    rw [hchl]
    exact fill_space p hch hguard n (Nat.min_le_left _ _)
  rw [frameLoop_success p.bufferSize _ n 0 p.audioBuffer hspace]
  rw [chunks_shift (fileFrame file p.numChannels) 0 n 0]
  simp only [Nat.add_zero, Nat.zero_add]

theorem fill_resample_spec (p : Player) (file : AudioFile) (n W : ℕ) (r : ℚ)
    (hres : 1/10 < |p.fileSampleRate - p.outputSampleRate|)
    (hch : 0 < p.numChannels)
    (hguard : chunkFrames ≤ (p.bufferSize - p.audioBuffer.length) / p.numChannels)
    (hpos : p.fileReadPosition < p.totalFrames)
    (hr : r = p.fileSampleRate / p.outputSampleRate)
    (hn : n = min chunkFrames (p.totalFrames - p.fileReadPosition))
    (hW : W = min ((⌊(n : ℚ) * r⌋).toNat + 2)
      (p.totalFrames - p.fileReadPosition)) :
    fillBufferFromFile p file =
      { p with
        audioBuffer := p.audioBuffer ++
          chunks (fun i => resampleFrameSamples
            (fun ch j => file ch (p.fileReadPosition + j))
            p.numChannels W r i) 0 n,
        fileReadPosition := p.fileReadPosition + W } := by
  have hnotlt : ¬ ((p.bufferSize - p.audioBuffer.length) / p.numChannels <
      chunkFrames) := Nat.not_lt.mpr hguard
  have hnotwrap : ¬ (p.totalFrames ≤ p.fileReadPosition) := Nat.not_le.mpr hpos
  have hne : ¬ (min (min chunkFrames
      ((p.bufferSize - p.audioBuffer.length) / p.numChannels))
      (p.totalFrames - p.fileReadPosition) = 0) := by
    rw [Nat.min_eq_left hguard]
    have h1 : 0 < p.totalFrames - p.fileReadPosition := by omega
    have h2 : 0 < chunkFrames := by simp [chunkFrames]
    omega
  simp only [fillBufferFromFile, if_neg hnotlt, if_neg hnotwrap, if_neg hne,
    if_pos hres]
  rw [Nat.min_eq_left hguard] at hne ⊢
  rw [← hr, ← hn, ← hW]
  have hlen : ∀ j, ((fun i => resampleFrameSamples
      (fun ch j => file ch (p.fileReadPosition + j))
      p.numChannels W r i) j).length ≤ p.numChannels :=
    fun j => resampleFrameSamples_length_le _ _ _ _ _
  have hchl : (chunks (fun i => resampleFrameSamples
      (fun ch j => file ch (p.fileReadPosition + j))
      p.numChannels W r i) 0 n).length ≤ n * p.numChannels :=
    chunks_length_le _ _ hlen n 0
  have hspace : p.audioBuffer.length + (chunks (fun i => resampleFrameSamples
      (fun ch j => file ch (p.fileReadPosition + j))
      p.numChannels W r i) 0 n).length ≤ p.bufferSize := by
    have := fill_space p hch hguard n (hn ▸ Nat.min_le_left _ _)
    omega
  rw [frameLoop_success p.bufferSize _ n 0 p.audioBuffer hspace]

theorem processBlock_buffer_spec (p : Player) (F C : ℕ)
    (hplay : p.isPlaying = true) (hload : p.fileLoaded = true)
    (hbuf : F * p.numChannels ≤ p.audioBuffer.length) :
    processBlock p F C =
      ({ p with audioBuffer := p.audioBuffer.drop (F * min p.numChannels 8) },
       (renderLoop p.numChannels C p.currentGain 0 F p.audioBuffer
         (fun _ _ => 0)).2) := by
  have hcond : (!p.isPlaying || !p.fileLoaded) = false := by
    rw [hplay, hload]; rfl
  have hnotlt : ¬ (p.audioBuffer.length < F * p.numChannels) := Nat.not_lt.mpr hbuf
  have hmin : F * min p.numChannels 8 ≤ p.audioBuffer.length := by
    calc F * min p.numChannels 8 ≤ F * p.numChannels :=
      Nat.mul_le_mul_left _ (Nat.min_le_left _ _)
    _ ≤ p.audioBuffer.length := hbuf
  simp only [processBlock, hcond, Bool.false_eq_true, if_false, if_neg hnotlt]
  rw [renderLoop_buffer p.numChannels C p.currentGain F 0 p.audioBuffer _ hmin]

theorem processBlock_out_spec (p : Player) (F C : ℕ) (gs : ℕ → List ℚ)
    (rest : List ℚ)
    (hplay : p.isPlaying = true) (hload : p.fileLoaded = true)
    (hch8 : p.numChannels ≤ 8)
    (hbufeq : p.audioBuffer = chunks gs 0 F ++ rest)
    (hglen : ∀ j, (gs j).length = p.numChannels) :
    processBlock p F C =
      ({ p with audioBuffer := rest },
       fun c fr => if fr < F ∧ c < C then
           (gs fr).getD (min c (p.numChannels - 1)) 0 * p.currentGain
         else 0) := by
  have hcond : (!p.isPlaying || !p.fileLoaded) = false := by
    rw [hplay, hload]; rfl
  have hmin8 : min p.numChannels 8 = p.numChannels := Nat.min_eq_left hch8
  have hglen8 : ∀ j, (gs j).length = min p.numChannels 8 := by
    intro j; rw [hmin8]; exact hglen j
  have hlenchunks : (chunks gs 0 F).length = F * p.numChannels :=
    chunks_length_const _ _ hglen F 0
  have hnotlt : ¬ (p.audioBuffer.length < F * p.numChannels) := by
    rw [hbufeq, List.length_append, hlenchunks]
    omega
  simp only [processBlock, hcond, Bool.false_eq_true, if_false, if_neg hnotlt]
  rw [hbufeq, renderLoop_out p.numChannels C p.currentGain gs hglen8 F 0 rest
    (fun _ _ => 0)]
  refine Prod.ext rfl ?_
  funext c fr
  simp only
  by_cases h : fr < F ∧ c < C
  · rw [if_pos (by omega : 0 ≤ fr ∧ fr < 0 + F ∧ c < C), if_pos h]
  · rw [if_neg (by omega : ¬ (0 ≤ fr ∧ fr < 0 + F ∧ c < C)), if_neg h]

/-! Claim theorems. -/

/-- Claim C1. The claim states that every processBlock invocation with F
output frames, while playing and loaded with enough buffered samples,
advances the published playback position (totalSamplesPlayed, read through
getCurrentOutputFrame) by exactly F modulo the total frame count. The code
does not: evaluated on a playing, loaded 2-channel player with 8 buffered
samples and a 4-frame block, the render completes (the preconditions of the
claim hold) yet getCurrentOutputFrame is still 0 afterwards, not
(0 + 4) mod 100 = 4. The counter is written only by stop() and by dead
legacy code; processBlock never touches it. -/
theorem claim_C1 :
    pRender.isPlaying = true ∧ pRender.fileLoaded = true ∧
    4 * pRender.numChannels ≤ pRender.audioBuffer.length ∧
    getCurrentOutputFrame pRender = 0 ∧
    getCurrentOutputFrame (processBlock pRender 4 2).1 = 0 ∧
    (getCurrentOutputFrame pRender + 4) % pRender.totalFrames = 4 := by
  refine ⟨rfl, rfl, by decide, rfl, ?_, by decide⟩
  rfl

/-- Claim C3, counterexample. The claim states that skipForward(s) sets
both the worker's file-read cursor and the published playback-position
cursor to the new position. On pSeek (position 10, file rate 10 Hz, 100
frames), skipForward 2 sets the file-read cursor to 10 + 20 = 30 but
leaves the published cursor (totalSamplesPlayed, returned by
getCurrentOutputFrame) at 10. -/
theorem claim_C3_counterexample :
    (skipForward pSeek 2).1.fileReadPosition = 30 ∧
    (skipForward pSeek 2).1.totalSamplesPlayed = 10 ∧
    getCurrentOutputFrame (skipForward pSeek 2).1 ≠ 30 := by
  refine ⟨?_, rfl, by decide⟩
  with_unfolding_all decide

/-- Claim C3, amended. For every skipForward(s) call on a loaded file with
a positive frame count, the worker's file-read cursor is set to
(current + floor(s * fileSampleRate)) mod totalFrames and the ring buffer
is cleared, so the next render pulls audio from the new location; the
published playback-position cursor is left unchanged (and is what the call
returns). -/
theorem claim_C3_amended (p : Player) (s : ℚ)
    (hload : p.fileLoaded = true) :
    (skipForward p s).1.fileReadPosition =
      (p.fileReadPosition + (⌊s * p.fileSampleRate⌋).toNat) % p.totalFrames ∧
    (skipForward p s).1.audioBuffer = [] ∧
    (skipForward p s).1.totalSamplesPlayed = p.totalSamplesPlayed ∧
    (skipForward p s).2 = p.totalSamplesPlayed := by
  have hcond : (!p.fileLoaded) = false := by rw [hload]; rfl
  have hpos : (skipForward p s).1.fileReadPosition =
      (p.fileReadPosition + (⌊s * p.fileSampleRate⌋).toNat) % p.totalFrames := by
    simp only [skipForward, hcond, Bool.false_eq_true, if_false]
    by_cases h : p.totalFrames ≤
        p.fileReadPosition + (⌊s * p.fileSampleRate⌋).toNat
    · rw [if_pos h]
    · rw [if_neg h, Nat.mod_eq_of_lt (by omega)]
  have hbuf : (skipForward p s).1.audioBuffer = [] := by
    simp only [skipForward, hcond, Bool.false_eq_true, if_false]
  have hts : (skipForward p s).1.totalSamplesPlayed = p.totalSamplesPlayed := by
    simp only [skipForward, hcond, Bool.false_eq_true, if_false]
  have hret : (skipForward p s).2 = p.totalSamplesPlayed := by
    simp only [skipForward, hcond, Bool.false_eq_true, if_false,
      getCurrentOutputFrame]
  exact ⟨hpos, hbuf, hts, hret⟩

/-- Claim C3, amended, witness at pSeek with s = 2 seconds. -/
theorem claim_C3_amended_witness :
    pSeek.fileLoaded = true ∧
    ((skipForward pSeek 2).1.fileReadPosition =
      (pSeek.fileReadPosition + (⌊(2 : ℚ) * pSeek.fileSampleRate⌋).toNat) %
        pSeek.totalFrames ∧
     (skipForward pSeek 2).1.audioBuffer = [] ∧
     (skipForward pSeek 2).1.totalSamplesPlayed = pSeek.totalSamplesPlayed ∧
     (skipForward pSeek 2).2 = pSeek.totalSamplesPlayed) :=
  ⟨rfl, claim_C3_amended pSeek 2 rfl⟩

/-- Claim C2, counterexample. The claim states that across every pair of
consecutive worker fill invocations no decoded sample is dropped. On the
resampling path this fails: the fill advances the read cursor by the whole
read window (fileFramesToRead source frames, cpp line 300) although the
output frames only cover source positions up to (n-1) * ratio. On pSkip
(9-frame file at ratio 3/4) the first fill reads the 8-frame window,
advances the cursor to 8, and no pushed sample depends on the decoded
sample at source frame 7: two files differing exactly at frame 7 produce
identical ring buffers. The next invocation resumes at frame 8 — it
appends the sample of frame 8, not frame 7 — so the decoded sample at
frame 7 never enters the ring buffer: it is dropped at the chunk
boundary. -/
theorem claim_C2_counterexample :
    (fillBufferFromFile pSkip fileSpike).fileReadPosition = 8 ∧
    (7 : ℕ) < 8 ∧
    fileSpike 0 7 ≠ fileZero 0 7 ∧
    (fillBufferFromFile pSkip fileSpike).audioBuffer =
      (fillBufferFromFile pSkip fileZero).audioBuffer ∧
    (fillBufferFromFile (fillBufferFromFile pSkip fileSpike)
        fileSpike).audioBuffer =
      (fillBufferFromFile pSkip fileSpike).audioBuffer ++ [fileSpike 0 8] := by
  refine ⟨?_, by decide, ?_, ?_, ?_⟩
  · with_unfolding_all decide
  · with_unfolding_all decide
  · with_unfolding_all decide
  · with_unfolding_all decide

/-- Claim C2, amended. On the direct-copy path (source rate within the 0.1
tolerance of the output rate), across every pair of consecutive worker
fill invocations no sample is dropped or duplicated: under the free-space
guard every push succeeds (the mid-frame failed-push resume is never
exercised), each invocation appends exactly the interleaved samples of the
file frames from the read cursor on and advances the cursor by the frame
count pushed, so the second invocation pushes exactly the samples
following the last pushed sample — the concatenation of the two appended
runs is the single contiguous run of n1 + n2 file frames. On the
resampling path the property does not hold: the cursor advances by
floor(n * ratio) + 2 source frames while the outputs cover only source
positions up to (n - 1) * ratio, so decoded samples at each chunk boundary
never enter the ring buffer. -/
theorem claim_C2_amended (p : Player) (file : AudioFile) (n1 n2 : ℕ)
    (hres : ¬ (1/10 < |p.fileSampleRate - p.outputSampleRate|))
    (hch : 0 < p.numChannels)
    (hguard1 : chunkFrames ≤
      (p.bufferSize - p.audioBuffer.length) / p.numChannels)
    (hpos1 : p.fileReadPosition < p.totalFrames)
    (hn1 : n1 = min chunkFrames (p.totalFrames - p.fileReadPosition))
    (hguard2 : chunkFrames ≤
      (p.bufferSize - (p.audioBuffer.length + n1 * p.numChannels)) /
        p.numChannels)
    (hpos2 : p.fileReadPosition + n1 < p.totalFrames)
    (hn2 : n2 = min chunkFrames (p.totalFrames - (p.fileReadPosition + n1))) :
    (fillBufferFromFile p file).audioBuffer =
      p.audioBuffer ++
        chunks (fileFrame file p.numChannels) p.fileReadPosition n1 ∧
    (fillBufferFromFile p file).fileReadPosition = p.fileReadPosition + n1 ∧
    (fillBufferFromFile (fillBufferFromFile p file) file).audioBuffer =
      p.audioBuffer ++
        chunks (fileFrame file p.numChannels) p.fileReadPosition (n1 + n2) := by
  subst hn1
  subst hn2
  have e1 := fill_direct_spec p file hres hch hguard1 hpos1
  have haud : (fillBufferFromFile p file).audioBuffer =
      p.audioBuffer ++ chunks (fileFrame file p.numChannels)
        p.fileReadPosition
        (min chunkFrames (p.totalFrames - p.fileReadPosition)) := by
    rw [e1]
  have hfr : (fillBufferFromFile p file).fileReadPosition =
      p.fileReadPosition +
        min chunkFrames (p.totalFrames - p.fileReadPosition) := by
    rw [e1]
  have htf : (fillBufferFromFile p file).totalFrames = p.totalFrames := by
    rw [e1]
  have hbs : (fillBufferFromFile p file).bufferSize = p.bufferSize := by
    rw [e1]
  have hnc : (fillBufferFromFile p file).numChannels = p.numChannels := by
    rw [e1]
  have hsr : (fillBufferFromFile p file).fileSampleRate = p.fileSampleRate := by
    rw [e1]
  have hor : (fillBufferFromFile p file).outputSampleRate =
      p.outputSampleRate := by rw [e1]
  have hlenchunks : (chunks (fileFrame file p.numChannels)
      p.fileReadPosition
      (min chunkFrames (p.totalFrames - p.fileReadPosition))).length =
      min chunkFrames (p.totalFrames - p.fileReadPosition) * p.numChannels :=
    chunks_length_const _ _ (fun j => fileFrame_length file p.numChannels j) _ _
  have hlen1 : (fillBufferFromFile p file).audioBuffer.length =
      p.audioBuffer.length +
        min chunkFrames (p.totalFrames - p.fileReadPosition) *
          p.numChannels := by
    rw [haud, List.length_append, hlenchunks]
  have hres2 : ¬ (1/10 < |(fillBufferFromFile p file).fileSampleRate -
      (fillBufferFromFile p file).outputSampleRate|) := by
    rw [hsr, hor]; exact hres
  have hch2 : 0 < (fillBufferFromFile p file).numChannels := by
    rw [hnc]; exact hch
  have hguard2' : chunkFrames ≤
      ((fillBufferFromFile p file).bufferSize -
        (fillBufferFromFile p file).audioBuffer.length) /
        (fillBufferFromFile p file).numChannels := by
    rw [hbs, hlen1, hnc]; exact hguard2
  have hpos2' : (fillBufferFromFile p file).fileReadPosition <
      (fillBufferFromFile p file).totalFrames := by
    rw [hfr, htf]; exact hpos2
  have e2 := fill_direct_spec (fillBufferFromFile p file) file hres2 hch2
    hguard2' hpos2'
  refine ⟨haud, hfr, ?_⟩
  have haud2 : (fillBufferFromFile (fillBufferFromFile p file) file).audioBuffer
      = (fillBufferFromFile p file).audioBuffer ++
        chunks (fileFrame file (fillBufferFromFile p file).numChannels)
          (fillBufferFromFile p file).fileReadPosition
          (min chunkFrames ((fillBufferFromFile p file).totalFrames -
            (fillBufferFromFile p file).fileReadPosition)) := by
    rw [e2]
  rw [haud2, haud, hfr, htf, hnc, List.append_assoc, chunks_append]

/-- Claim C2, amended, witness: a mono 3000-frame file streamed by two
1024-frame fills into a 4096-sample buffer. -/
theorem claim_C2_amended_witness :
    (¬ (1/10 < |pStream.fileSampleRate - pStream.outputSampleRate|)) ∧
    ((fillBufferFromFile pStream fileRamp).audioBuffer =
      pStream.audioBuffer ++
        chunks (fileFrame fileRamp pStream.numChannels)
          pStream.fileReadPosition 1024 ∧
     (fillBufferFromFile pStream fileRamp).fileReadPosition =
      pStream.fileReadPosition + 1024 ∧
     (fillBufferFromFile (fillBufferFromFile pStream fileRamp)
        fileRamp).audioBuffer =
      pStream.audioBuffer ++
        chunks (fileFrame fileRamp pStream.numChannels)
          pStream.fileReadPosition (1024 + 1024)) :=
  ⟨by with_unfolding_all decide,
   claim_C2_amended pStream fileRamp 1024 1024 (by with_unfolding_all decide)
     (by decide) (by decide) (by decide) (by decide) (by decide) (by decide)
     (by decide)⟩

/-- Claim C4. When the worker's read cursor has reached end-of-file, the
next fill invocation wraps the cursor to 0 and raises the loop flag; the
first frame pushed after the wrap is the file's frame 0 (the appended run
is exactly the interleaved frames 0, 1, ... — no gap and no duplicate of
the last frame), and polling getLoopPlaybackDetected returns true and
atomically clears the flag, so an immediate second poll returns false. -/
theorem claim_C4 (p : Player) (file : AudioFile)
    (hres : ¬ (1/10 < |p.fileSampleRate - p.outputSampleRate|))
    (hch : 0 < p.numChannels)
    (hguard : chunkFrames ≤
      (p.bufferSize - p.audioBuffer.length) / p.numChannels)
    (hpos : p.totalFrames ≤ p.fileReadPosition)
    (htot : 0 < p.totalFrames) :
    (fillBufferFromFile p file).loopPlaybackDetected = true ∧
    (fillBufferFromFile p file).fileReadPosition =
      min chunkFrames p.totalFrames ∧
    (fillBufferFromFile p file).audioBuffer = p.audioBuffer ++
      chunks (fileFrame file p.numChannels) 0 (min chunkFrames p.totalFrames) ∧
    ((fillBufferFromFile p file).audioBuffer.drop p.audioBuffer.length).take
      p.numChannels = fileFrame file p.numChannels 0 ∧
    (getLoopPlaybackDetected (fillBufferFromFile p file)).1 = true ∧
    (getLoopPlaybackDetected
      (getLoopPlaybackDetected (fillBufferFromFile p file)).2).1 = false := by
  have e := fill_direct_wrap_spec p file hres hch hguard hpos htot
  have hflag : (fillBufferFromFile p file).loopPlaybackDetected = true := by
    rw [e]
  have haud : (fillBufferFromFile p file).audioBuffer = p.audioBuffer ++
      chunks (fileFrame file p.numChannels) 0
        (min chunkFrames p.totalFrames) := by rw [e]
  refine ⟨hflag, by rw [e], haud, ?_, ?_, rfl⟩
  · rw [haud, List.drop_left]
    have hm : min chunkFrames p.totalFrames =
        (min chunkFrames p.totalFrames - 1) + 1 := by
      have : 0 < chunkFrames := by decide
      omega
    rw [hm]
    simp only [chunks]
    exact List.take_left' (fileFrame_length file p.numChannels 0)
  · simp only [getLoopPlaybackDetected, hflag]

/-- Claim C4, witness: a mono player at the end of its 5-frame file. -/
theorem claim_C4_witness :
    (pLoop.totalFrames ≤ pLoop.fileReadPosition) ∧
    ((fillBufferFromFile pLoop fileRamp).loopPlaybackDetected = true ∧
     (fillBufferFromFile pLoop fileRamp).fileReadPosition =
      min chunkFrames pLoop.totalFrames ∧
     (fillBufferFromFile pLoop fileRamp).audioBuffer = pLoop.audioBuffer ++
      chunks (fileFrame fileRamp pLoop.numChannels) 0
        (min chunkFrames pLoop.totalFrames) ∧
     ((fillBufferFromFile pLoop fileRamp).audioBuffer.drop
        pLoop.audioBuffer.length).take pLoop.numChannels =
      fileFrame fileRamp pLoop.numChannels 0 ∧
     (getLoopPlaybackDetected (fillBufferFromFile pLoop fileRamp)).1 = true ∧
     (getLoopPlaybackDetected
       (getLoopPlaybackDetected (fillBufferFromFile pLoop fileRamp)).2).1 =
      false) :=
  ⟨by decide,
   claim_C4 pLoop fileRamp (by with_unfolding_all decide) (by decide)
     (by decide) (by decide) (by decide)⟩

/-- Claim C5. Whenever the player is paused, stopped or not loaded, or the
ring buffer holds fewer than F * numChannels samples, processBlock returns
the state unchanged (no samples are popped) and the output block is exactly
zero everywhere. -/
theorem claim_C5 (p : Player) (F C : ℕ)
    (h : p.isPlaying = false ∨ p.fileLoaded = false ∨
      p.audioBuffer.length < F * p.numChannels) :
    processBlock p F C = (p, fun _ _ => 0) := by
  cases hb : (!p.isPlaying || !p.fileLoaded) with
  | true => simp [processBlock, hb]
  | false =>
    have hplay : p.isPlaying = true := by
      cases hp : p.isPlaying
      · rw [hp] at hb; simp at hb
      · rfl
    have hload : p.fileLoaded = true := by
      cases hl : p.fileLoaded
      · rw [hl] at hb; simp at hb
      · rfl
    have hlt : p.audioBuffer.length < F * p.numChannels := by
      rcases h with h | h | h
      · rw [hplay] at h; exact absurd h (by decide)
      · rw [hload] at h; exact absurd h (by decide)
      · exact h
    simp [processBlock, hb, hlt]

/-- Claim C5, witness: a paused player and separately an underrun on a
playing player. -/
theorem claim_C5_witness :
    (pPaused.isPlaying = false ∨ pPaused.fileLoaded = false ∨
      pPaused.audioBuffer.length < 4 * pPaused.numChannels) ∧
    processBlock pPaused 4 2 = (pPaused, fun _ _ => 0) ∧
    (pRender.isPlaying = false ∨ pRender.fileLoaded = false ∨
      pRender.audioBuffer.length < 100 * pRender.numChannels) ∧
    processBlock pRender 100 2 = (pRender, fun _ _ => 0) :=
  ⟨Or.inl rfl, claim_C5 pPaused 4 2 (Or.inl rfl),
   Or.inr (Or.inr (by decide)),
   claim_C5 pRender 100 2 (Or.inr (Or.inr (by decide)))⟩

/-- Claim C6. When the file's sample rate equals the output rate within the
0.1 tolerance, the fill worker bypasses the rate converter and copies file
samples directly into the ring buffer, and with the gain at its default 1
every sample delivered by the render callback equals the corresponding file
sample exactly: output channel c of output frame f carries the file sample
of channel min(c, numChannels-1) at frame fileReadPosition + f. -/
theorem claim_C6 (p : Player) (file : AudioFile) (F C : ℕ)
    (hres : ¬ (1/10 < |p.fileSampleRate - p.outputSampleRate|))
    (hch : 0 < p.numChannels) (hch8 : p.numChannels ≤ 8)
    (hgain : p.currentGain = 1)
    (hplay : p.isPlaying = true) (hload : p.fileLoaded = true)
    (hempty : p.audioBuffer = [])
    (hguard : chunkFrames ≤ p.bufferSize / p.numChannels)
    (hpos : p.fileReadPosition < p.totalFrames)
    (hF : F ≤ min chunkFrames (p.totalFrames - p.fileReadPosition)) :
    ∀ c, c < C → ∀ f, f < F →
      (processBlock (fillBufferFromFile p file) F C).2 c f =
        file (min c (p.numChannels - 1)) (p.fileReadPosition + f) := by
  have hguard' : chunkFrames ≤
      (p.bufferSize - p.audioBuffer.length) / p.numChannels := by
    rw [hempty]
    simpa using hguard
  have e1 := fill_direct_spec p file hres hch hguard' hpos
  have hq_play : (fillBufferFromFile p file).isPlaying = true := by
    rw [e1]; exact hplay
  have hq_load : (fillBufferFromFile p file).fileLoaded = true := by
    rw [e1]; exact hload
  have hq_nc : (fillBufferFromFile p file).numChannels = p.numChannels := by
    rw [e1]
  have hq_gain : (fillBufferFromFile p file).currentGain = p.currentGain := by
    rw [e1]
  have hq_aud : (fillBufferFromFile p file).audioBuffer =
      p.audioBuffer ++ chunks (fileFrame file p.numChannels)
        p.fileReadPosition
        (min chunkFrames (p.totalFrames - p.fileReadPosition)) := by
    rw [e1]
  rw [hempty, List.nil_append] at hq_aud
  have hsplitn : F + (min chunkFrames (p.totalFrames - p.fileReadPosition) - F)
      = min chunkFrames (p.totalFrames - p.fileReadPosition) := by omega
  have hshift : chunks (fun j =>
      fileFrame file p.numChannels (p.fileReadPosition + j)) 0 F =
      chunks (fileFrame file p.numChannels) (p.fileReadPosition + 0) F :=
    chunks_shift (fileFrame file p.numChannels) p.fileReadPosition F 0
  have hbufeq : (fillBufferFromFile p file).audioBuffer =
      chunks (fun j => fileFrame file p.numChannels (p.fileReadPosition + j))
        0 F ++
      chunks (fileFrame file p.numChannels) (p.fileReadPosition + F)
        (min chunkFrames (p.totalFrames - p.fileReadPosition) - F) := by
    rw [hq_aud, hshift, Nat.add_zero, chunks_append, hsplitn]
  have hglen : ∀ j, ((fun j =>
      fileFrame file p.numChannels (p.fileReadPosition + j)) j).length =
      (fillBufferFromFile p file).numChannels := by
    intro j
    rw [hq_nc]
    exact fileFrame_length file p.numChannels _
  have e2 := processBlock_out_spec (fillBufferFromFile p file) F C
    (fun j => fileFrame file p.numChannels (p.fileReadPosition + j))
    (chunks (fileFrame file p.numChannels) (p.fileReadPosition + F)
      (min chunkFrames (p.totalFrames - p.fileReadPosition) - F))
    hq_play hq_load (by rw [hq_nc]; exact hch8) hbufeq hglen
  intro c hc f hf
  rw [e2]
  simp only
  rw [if_pos ⟨hf, hc⟩, hq_nc, hq_gain, hgain, mul_one]
  exact fileFrame_getD file p.numChannels (p.fileReadPosition + f)
    (min c (p.numChannels - 1)) (by omega)

/-- Claim C6, witness: a stereo 4-frame file rendered into 3 output
channels; output channel 2 frame 3 carries file channel 1 frame 3. -/
theorem claim_C6_witness :
    pDirect.currentGain = 1 ∧ pDirect.numChannels ≤ 8 ∧
    (processBlock (fillBufferFromFile pDirect fileRamp) 4 3).2 2 3 =
      fileRamp (min 2 (pDirect.numChannels - 1)) (pDirect.fileReadPosition + 3) :=
  ⟨rfl, by decide,
   claim_C6 pDirect fileRamp 4 3 (by with_unfolding_all decide) (by decide)
     (by decide) rfl rfl rfl rfl (by decide) (by decide) (by decide)
     2 (by decide) 3 (by decide)⟩

/-- Claim C9. play() and pause() change only the playing state: the
file-read cursor, the published playback position, the gain and the ring
buffer contents are untouched; stop() and skipForward() are the operations
that clear the ring buffer. -/
theorem claim_C9 (p : Player) (s : ℚ) :
    (play p).isPlaying = true ∧
    (play p).fileReadPosition = p.fileReadPosition ∧
    (play p).totalSamplesPlayed = p.totalSamplesPlayed ∧
    (play p).currentGain = p.currentGain ∧
    (play p).audioBuffer = p.audioBuffer ∧
    (pause p).isPlaying = false ∧
    (pause p).fileReadPosition = p.fileReadPosition ∧
    (pause p).totalSamplesPlayed = p.totalSamplesPlayed ∧
    (pause p).currentGain = p.currentGain ∧
    (pause p).audioBuffer = p.audioBuffer ∧
    (stop p).audioBuffer = [] ∧
    (p.fileLoaded = true → (skipForward p s).1.audioBuffer = []) := by
  refine ⟨rfl, rfl, rfl, rfl, rfl, rfl, rfl, rfl, rfl, rfl, rfl, ?_⟩
  intro h
  have hcond : (!p.fileLoaded) = false := by rw [h]; rfl
  simp only [skipForward, hcond, Bool.false_eq_true, if_false]

/-- Claim C9, witness at pSeek. -/
theorem claim_C9_witness :
    (play pSeek).isPlaying = true ∧
    (play pSeek).fileReadPosition = pSeek.fileReadPosition ∧
    (play pSeek).totalSamplesPlayed = pSeek.totalSamplesPlayed ∧
    (play pSeek).currentGain = pSeek.currentGain ∧
    (play pSeek).audioBuffer = pSeek.audioBuffer ∧
    (pause pSeek).isPlaying = false ∧
    (pause pSeek).fileReadPosition = pSeek.fileReadPosition ∧
    (pause pSeek).totalSamplesPlayed = pSeek.totalSamplesPlayed ∧
    (pause pSeek).currentGain = pSeek.currentGain ∧
    (pause pSeek).audioBuffer = pSeek.audioBuffer ∧
    (stop pSeek).audioBuffer = [] ∧
    (pSeek.fileLoaded = true → (skipForward pSeek 1).1.audioBuffer = []) :=
  claim_C9 pSeek 1

/-- Claim C10. The render callback supports at most 8 file channels: when
numChannels is at most 8, each rendered frame pops exactly numChannels
samples from the ring buffer (F frames pop F * numChannels samples) and
every staging-array index used — both the pop index and the mapping index
min(channel, numChannels-1) — stays below 8; when numChannels exceeds 8,
only 8 samples are popped per rendered frame and the mapping index can
reach positions at or beyond 8. -/
theorem claim_C10 (p : Player) (F C : ℕ)
    (hplay : p.isPlaying = true) (hload : p.fileLoaded = true)
    (hch : 0 < p.numChannels)
    (hbuf : F * p.numChannels ≤ p.audioBuffer.length) :
    (p.numChannels ≤ 8 →
      (processBlock p F C).1.audioBuffer =
        p.audioBuffer.drop (F * p.numChannels) ∧
      min p.numChannels 8 = p.numChannels ∧
      ∀ c, min c (p.numChannels - 1) < 8) ∧
    (8 < p.numChannels →
      (processBlock p F C).1.audioBuffer = p.audioBuffer.drop (F * 8) ∧
      min p.numChannels 8 = 8 ∧
      ∃ c, 8 ≤ min c (p.numChannels - 1)) := by
  have e := processBlock_buffer_spec p F C hplay hload hbuf
  have haud : (processBlock p F C).1.audioBuffer =
      p.audioBuffer.drop (F * min p.numChannels 8) := by rw [e]
  constructor
  · intro h8
    refine ⟨?_, Nat.min_eq_left h8, fun c => by omega⟩
    rw [haud, Nat.min_eq_left h8]
  · intro h8
    refine ⟨?_, Nat.min_eq_right (by omega), ⟨8, by omega⟩⟩
    rw [haud, Nat.min_eq_right (by omega)]

/-- Claim C10, witness: a 2-channel player (within the 8-channel staging
array) and a 9-channel player (beyond it). -/
theorem claim_C10_witness :
    ((pRender.numChannels ≤ 8 →
      (processBlock pRender 4 2).1.audioBuffer =
        pRender.audioBuffer.drop (4 * pRender.numChannels) ∧
      min pRender.numChannels 8 = pRender.numChannels ∧
      ∀ c, min c (pRender.numChannels - 1) < 8) ∧
     (8 < pRender.numChannels →
      (processBlock pRender 4 2).1.audioBuffer =
        pRender.audioBuffer.drop (4 * 8) ∧
      min pRender.numChannels 8 = 8 ∧
      ∃ c, 8 ≤ min c (pRender.numChannels - 1))) ∧
    ((pWide.numChannels ≤ 8 →
      (processBlock pWide 1 9).1.audioBuffer =
        pWide.audioBuffer.drop (1 * pWide.numChannels) ∧
      min pWide.numChannels 8 = pWide.numChannels ∧
      ∀ c, min c (pWide.numChannels - 1) < 8) ∧
     (8 < pWide.numChannels →
      (processBlock pWide 1 9).1.audioBuffer =
        pWide.audioBuffer.drop (1 * 8) ∧
      min pWide.numChannels 8 = 8 ∧
      ∃ c, 8 ≤ min c (pWide.numChannels - 1))) :=
  ⟨claim_C10 pRender 4 2 rfl rfl (by decide) (by decide),
   claim_C10 pWide 1 9 rfl rfl (by decide) (by decide)⟩

/-- Claim C8, counterexample. The claim states the resampler reads
ceil(outputFrames * ratio) + 2 source frames (clamped to the frames
remaining). On pUpsample (9 output frames at ratio 36000/48000 = 3/4, 9
frames remaining) the code reads floor(9 * 3/4) + 2 = 8 source frames —
the read cursor lands at 8 — while the claim's formula gives
min(ceil(27/4) + 2, 9) = 9. -/
theorem claim_C8_counterexample :
    (fillBufferFromFile pUpsample fileZero).fileReadPosition = 8 ∧
    min ((⌈(9 : ℚ) * (36000 / 48000)⌉).toNat + 2) 9 = 9 ∧
    (8 : ℕ) ≠ 9 := by
  refine ⟨?_, by with_unfolding_all decide, by decide⟩
  with_unfolding_all decide

/-- Claim C8, amended. For a resampling fill producing n output frames at
ratio r the converter reads exactly min(floor(n * r) + 2, availableFrames)
source frames (the read cursor advances by that amount): the margin uses
the floor of n * r, not the ceiling, so it is one frame short of the
claimed ceil(n * r) + 2 whenever n * r is not an integer (the floor and
ceiling bracket each other within one). -/
theorem claim_C8_amended (p : Player) (file : AudioFile) (n W : ℕ) (r : ℚ)
    (hres : 1/10 < |p.fileSampleRate - p.outputSampleRate|)
    (hch : 0 < p.numChannels)
    (hguard : chunkFrames ≤
      (p.bufferSize - p.audioBuffer.length) / p.numChannels)
    (hpos : p.fileReadPosition < p.totalFrames)
    (hr : r = p.fileSampleRate / p.outputSampleRate)
    (hn : n = min chunkFrames (p.totalFrames - p.fileReadPosition))
    (hW : W = min ((⌊(n : ℚ) * r⌋).toNat + 2)
      (p.totalFrames - p.fileReadPosition)) :
    (fillBufferFromFile p file).fileReadPosition = p.fileReadPosition + W ∧
    ⌊(n : ℚ) * r⌋ ≤ ⌈(n : ℚ) * r⌉ ∧ ⌈(n : ℚ) * r⌉ ≤ ⌊(n : ℚ) * r⌋ + 1 := by
  refine ⟨?_, Int.floor_le_ceil _, Int.ceil_le_floor_add_one _⟩
  rw [fill_resample_spec p file n W r hres hch hguard hpos hr hn hW]

/-- Claim C8, amended, witness: 9 output frames at ratio 3/4 read
min(floor(27/4) + 2, 9) = 8 source frames. -/
theorem claim_C8_amended_witness :
    ((9 : ℕ) = min chunkFrames (pUpsample.totalFrames -
      pUpsample.fileReadPosition)) ∧
    ((8 : ℕ) = min ((⌊(9 : ℚ) * (3/4 : ℚ)⌋).toNat + 2)
      (pUpsample.totalFrames - pUpsample.fileReadPosition)) ∧
    ((fillBufferFromFile pUpsample fileZero).fileReadPosition =
      pUpsample.fileReadPosition + 8 ∧
     ⌊(9 : ℚ) * (3/4 : ℚ)⌋ ≤ ⌈(9 : ℚ) * (3/4 : ℚ)⌉ ∧
     ⌈(9 : ℚ) * (3/4 : ℚ)⌉ ≤ ⌊(9 : ℚ) * (3/4 : ℚ)⌋ + 1) :=
  ⟨by decide, by with_unfolding_all decide,
   claim_C8_amended pUpsample fileZero 9 8 (3/4)
     (by with_unfolding_all decide) (by decide) (by decide) (by decide)
     (by with_unfolding_all decide) (by decide)
     (by with_unfolding_all decide)⟩

/-- Claim C7, counterexample. The claim states Catmull-Rom interpolation is
used whenever all four neighbouring source samples exist within the read
window. On pDownsample (ratio 3/2, window of W = 7 source frames), output
frame 3 has sourceFrame 4 and fraction 1/2; its four neighbours 3, 4, 5, 6
all lie inside the window (indices 0..6), yet the code requires
sourceFrame + 3 < W — here 7 < 7 fails — and falls back to linear
interpolation: the pushed sample is 1/2 (the linear value between samples
0 and 1), not the Catmull-Rom value 9/16. -/
theorem claim_C7_counterexample :
    ((⌊(3 : ℚ) * (3/2 : ℚ)⌋).toNat = 4 ∧ 1 ≤ 4 ∧ 4 + 2 ≤ 7 - 1) ∧
    (fillBufferFromFile pDownsample fileBump).audioBuffer.getD 3 0 =
      linearInterp (fileBump 0 4) (fileBump 0 5) (1/2) ∧
    (fillBufferFromFile pDownsample fileBump).audioBuffer.getD 3 0 = 1/2 ∧
    catmullRom (fileBump 0 3) (fileBump 0 4) (fileBump 0 5) (fileBump 0 6)
      (1/2) = 9/16 ∧
    ((1 : ℚ)/2) ≠ 9/16 := by
  refine ⟨⟨by with_unfolding_all decide, by decide, by decide⟩, ?_, ?_, ?_, ?_⟩
  · with_unfolding_all decide
  · with_unfolding_all decide
  · with_unfolding_all decide
  · with_unfolding_all decide

/-- Claim C7, amended. For every output frame of a resampled chunk with
fractional source position i * r, integer part sourceFrame, and the read
window of W = min(floor(n * r) + 2, availableFrames) source frames (the
window is clamped at end-of-file), the sample pushed for channel ch is:
the Catmull-Rom cubic over the four neighbours sourceFrame-1 ..
sourceFrame+2 when sourceFrame + 3 < W and sourceFrame is positive (one
frame stricter than the existence of the four neighbours: at
sourceFrame + 3 = W all four neighbours exist but the code still falls
back); linear interpolation over sourceFrame and sourceFrame+1 otherwise
when sourceFrame + 1 < W (the low boundary sourceFrame = 0 included); and
a direct copy of the sample at sourceFrame otherwise, when sourceFrame
still lies inside the window — the trailing boundary reached when the
window is clamped. Output frames whose integer source index falls at or
beyond the window push no samples at all. -/
theorem claim_C7_amended (p : Player) (file : AudioFile) (n W : ℕ) (r : ℚ)
    (hres : 1/10 < |p.fileSampleRate - p.outputSampleRate|)
    (hch : 0 < p.numChannels)
    (hguard : chunkFrames ≤
      (p.bufferSize - p.audioBuffer.length) / p.numChannels)
    (hpos : p.fileReadPosition < p.totalFrames)
    (hr : r = p.fileSampleRate / p.outputSampleRate)
    (hr0 : 0 ≤ r)
    (hn : n = min chunkFrames (p.totalFrames - p.fileReadPosition))
    (hW : W = min ((⌊(n : ℚ) * r⌋).toNat + 2)
      (p.totalFrames - p.fileReadPosition)) :
    ∀ i, i < n → ∀ ch, ch < p.numChannels →
    ∀ sf : ℕ, sf = (⌊(i : ℚ) * r⌋).toNat →
    ∀ t : ℚ, t = (i : ℚ) * r - (sf : ℚ) →
      (sf + 3 < W ∧ 0 < sf →
        (fillBufferFromFile p file).audioBuffer.getD
          (p.audioBuffer.length + i * p.numChannels + ch) 0 =
        catmullRom (file ch (p.fileReadPosition + (sf - 1)))
          (file ch (p.fileReadPosition + sf))
          (file ch (p.fileReadPosition + (sf + 1)))
          (file ch (p.fileReadPosition + (sf + 2))) t) ∧
      (¬ (sf + 3 < W ∧ 0 < sf) → sf + 1 < W →
        (fillBufferFromFile p file).audioBuffer.getD
          (p.audioBuffer.length + i * p.numChannels + ch) 0 =
        linearInterp (file ch (p.fileReadPosition + sf))
          (file ch (p.fileReadPosition + (sf + 1))) t) ∧
      (¬ (sf + 3 < W ∧ 0 < sf) → ¬ (sf + 1 < W) → sf < W →
        (fillBufferFromFile p file).audioBuffer.getD
          (p.audioBuffer.length + i * p.numChannels + ch) 0 =
        file ch (p.fileReadPosition + sf)) := by
  have e := fill_resample_spec p file n W r hres hch hguard hpos hr hn hW
  have haud : (fillBufferFromFile p file).audioBuffer =
      p.audioBuffer ++
        chunks (fun i => resampleFrameSamples
          (fun ch j => file ch (p.fileReadPosition + j))
          p.numChannels W r i) 0 n := by rw [e]
  intro i hi ch hch2 sf hsf t ht
  have hmono : ∀ j, j ≤ i →
      (⌊(j : ℚ) * r⌋).toNat ≤ (⌊(i : ℚ) * r⌋).toNat := by
    intro j hj
    have hmul : (j : ℚ) * r ≤ (i : ℚ) * r :=
      mul_le_mul_of_nonneg_right (by exact_mod_cast hj) hr0
    exact Int.toNat_le_toNat (Int.floor_le_floor hmul)
  have key : (⌊(i : ℚ) * r⌋).toNat < W →
      (fillBufferFromFile p file).audioBuffer.getD
        (p.audioBuffer.length + i * p.numChannels + ch) 0 =
      (resampleFrameSamples (fun ch j => file ch (p.fileReadPosition + j))
        p.numChannels W r i).getD ch 0 := by
    intro hsfi
    have hlen' : ∀ j, 0 ≤ j → j < 0 + (i + 1) →
        ((fun i => resampleFrameSamples
          (fun ch j => file ch (p.fileReadPosition + j))
          p.numChannels W r i) j).length = p.numChannels := by
      intro j _ hj
      exact resampleFrameSamples_length_of_lt _ _ _ _ _
        (lt_of_le_of_lt (hmono j (by omega)) hsfi)
    have hprefixlen : (chunks (fun i => resampleFrameSamples
        (fun ch j => file ch (p.fileReadPosition + j))
        p.numChannels W r i) 0 (i + 1)).length = (i + 1) * p.numChannels :=
      chunks_length_within _ _ (i + 1) 0 hlen'
    have hsplit : chunks (fun i => resampleFrameSamples
        (fun ch j => file ch (p.fileReadPosition + j))
        p.numChannels W r i) 0 n =
        chunks (fun i => resampleFrameSamples
          (fun ch j => file ch (p.fileReadPosition + j))
          p.numChannels W r i) 0 (i + 1) ++
        chunks (fun i => resampleFrameSamples
          (fun ch j => file ch (p.fileReadPosition + j))
          p.numChannels W r i) (0 + (i + 1)) (n - (i + 1)) := by
      rw [chunks_append]
      congr 1
      omega
    rw [haud, List.getD_append_right _ _ _ _ (by omega)]
    have harith : p.audioBuffer.length + i * p.numChannels + ch -
        p.audioBuffer.length = i * p.numChannels + ch := by omega
    rw [harith, hsplit,
      List.getD_append _ _ _ _ (by rw [hprefixlen, Nat.succ_mul]; omega)]
    have := chunks_getD (fun i => resampleFrameSamples
      (fun ch j => file ch (p.fileReadPosition + j))
      p.numChannels W r i) p.numChannels i (i + 1) 0 ch hlen'
      (by omega) hch2
    rw [this, Nat.zero_add]
  subst hsf
  subst ht
  refine ⟨?_, ?_, ?_⟩
  · intro hcub
    rw [key (by omega)]
    simp only [resampleFrameSamples, if_pos hcub]
    exact mapRange_getD _ _ _ hch2 0
  · intro hncub hlin
    rw [key (by omega)]
    simp only [resampleFrameSamples, if_neg hncub, if_pos hlin]
    exact mapRange_getD _ _ _ hch2 0
  · intro hncub hnlin hcopy
    rw [key hcopy]
    simp only [resampleFrameSamples, if_neg hncub, if_neg hnlin,
      if_pos hcopy]
    exact mapRange_getD _ _ _ hch2 0

/-- Claim C7, amended, witness. Copy tier: on pDownsample (ratio 3/2, the
window clamped to W = 7 at end-of-file), output frame 4 has sourceFrame 6;
neither the cubic nor the linear guard holds and 6 < 7, so its sample is a
direct copy of window frame 6. Cubic tier: on pUpsample (ratio 3/4,
window W = 8), output frame 2 has sourceFrame 1 with all margins inside
the window, so its sample is the Catmull-Rom cubic over window frames
0..3. -/
theorem claim_C7_amended_witness :
    ((7 : ℕ) = min ((⌊(7 : ℚ) * (3/2 : ℚ)⌋).toNat + 2) 7 ∧
     ¬ (6 + 3 < 7 ∧ 0 < 6) ∧ ¬ (6 + 1 < 7) ∧ (6 : ℕ) < 7 ∧
     (¬ (6 + 3 < 7 ∧ 0 < 6) → ¬ (6 + 1 < 7) → 6 < 7 →
      (fillBufferFromFile pDownsample fileBump).audioBuffer.getD
        (pDownsample.audioBuffer.length + 4 * pDownsample.numChannels + 0) 0 =
      fileBump 0 (pDownsample.fileReadPosition + 6))) ∧
    ((8 : ℕ) = min ((⌊(9 : ℚ) * (3/4 : ℚ)⌋).toNat + 2) 9 ∧
     (1 + 3 < 8 ∧ 0 < 1) ∧
     (1 + 3 < 8 ∧ 0 < 1 →
      (fillBufferFromFile pUpsample fileZero).audioBuffer.getD
        (pUpsample.audioBuffer.length + 2 * pUpsample.numChannels + 0) 0 =
      catmullRom (fileZero 0 (pUpsample.fileReadPosition + (1 - 1)))
        (fileZero 0 (pUpsample.fileReadPosition + 1))
        (fileZero 0 (pUpsample.fileReadPosition + (1 + 1)))
        (fileZero 0 (pUpsample.fileReadPosition + (1 + 2)))
        ((2 : ℚ) * (3/4 : ℚ) - ((1 : ℕ) : ℚ)))) :=
  ⟨⟨by with_unfolding_all decide, by decide, by decide, by decide,
    (claim_C7_amended pDownsample fileBump 7 7 (3/2)
      (by with_unfolding_all decide) (by decide) (by decide) (by decide)
      (by with_unfolding_all decide) (by with_unfolding_all decide)
      (by decide) (by with_unfolding_all decide) 4 (by decide) 0 (by decide)
      6 (by with_unfolding_all decide)
      ((4 : ℚ) * (3/2 : ℚ) - ((6 : ℕ) : ℚ)) rfl).2.2⟩,
   ⟨by with_unfolding_all decide, by decide,
    (claim_C7_amended pUpsample fileZero 9 8 (3/4)
      (by with_unfolding_all decide) (by decide) (by decide) (by decide)
      (by with_unfolding_all decide) (by with_unfolding_all decide)
      (by decide) (by with_unfolding_all decide) 2 (by decide) 0 (by decide)
      1 (by with_unfolding_all decide)
      ((2 : ℚ) * (3/4 : ℚ) - ((1 : ℕ) : ℚ)) rfl).1⟩⟩

end BufferedPlayer
